import Mathlib

/-!
Verification of the patent-claims extraction and Mermaid rendering pipeline
(`patent_drawing_generator.py`).

Text is modelled as `List Char`.  Python's `str.lower`/`str.upper` on ASCII
letters are `Char.toLower`/`Char.toUpper`; `str.title`, `str.strip`,
`int(...)` on digit strings and f-string number formatting are embedded
directly.  The three regular expressions the program uses are embedded by
executable functions with exactly the backtracking semantics of Python `re`:

* `findCitations` embeds `re.findall(r'([a-zA-Z\s]+?)\s*\((\d+)\)', text)`
  (leftmost, non-overlapping, non-greedy first group);
* `findWordMatches` embeds `re.findall(rf'\b{pattern}\b', text, re.IGNORECASE)`
  for the literal keyword patterns of the classifier table;
* `searchGo` embeds `re.search(rf'{n1}.*?{pat}.*?{n2}', text, re.IGNORECASE)`
  for literal `n1`, `pat`, `n2`, parameterised by which characters the gap
  `.*?` may consume (Python `.` matches every character except a newline).
-/

namespace PatentGen

/-- String literal to character list. -/
def sl (s : String) : List Char := s.data

/-- Python `\s` (ASCII range): space, tab, newline, carriage return,
form feed, vertical tab. -/
def isSpaceChar (c : Char) : Bool :=
  c == ' ' || c == '\t' || c == '\n' || c == '\r' || c == '\x0b' || c == '\x0c'

/-- Python `\d` (ASCII range). -/
def isDigitChar (c : Char) : Bool := '0' ≤ c && c ≤ '9'

/-- ASCII letter. -/
def isAlphaChar (c : Char) : Bool := ('a' ≤ c && c ≤ 'z') || ('A' ≤ c && c ≤ 'Z')

/-- Character class `[a-zA-Z\s]` of the citation regex. -/
def isNameChar (c : Char) : Bool := isAlphaChar c || isSpaceChar c

/-- Python `\w` (ASCII range): letters, digits, underscore. -/
def isWordChar (c : Char) : Bool := isAlphaChar c || isDigitChar c || c == '_'

/-- Python `str.lower` on each character (ASCII). -/
def lowerStr (s : List Char) : List Char := s.map Char.toLower

/-- Python `str.title` (ASCII): a cased character is uppercased after a
non-cased character and lowercased after a cased one. -/
def titleAux : Bool → List Char → List Char
  | _, [] => []
  | prevAlpha, c :: cs =>
    if isAlphaChar c then
      (if prevAlpha then c.toLower else c.toUpper) :: titleAux true cs
    else c :: titleAux false cs

/-- Python `str.title` (ASCII). -/
def titleCase (s : List Char) : List Char := titleAux false s

/-- Python `str.strip`: drop leading and trailing whitespace. -/
def stripStr (s : List Char) : List Char :=
  ((s.dropWhile isSpaceChar).reverse.dropWhile isSpaceChar).reverse

/-- Python `int(...)` on a digit string. -/
def digitsToNat (ds : List Char) : Nat :=
  ds.foldl (fun n d => n * 10 + (d.toNat - 48)) 0

/-- Decimal rendering of a number, as Python f-string formatting does. -/
def natStr (n : Nat) : List Char := (Nat.repr n).data

/-- Is `pat` a leading segment of `s`? -/
def startsWithSeg : List Char → List Char → Bool
  | _, [] => true
  | [], _ :: _ => false
  | c :: cs, p :: ps => p == c && startsWithSeg cs ps

/-- Does `pat` occur as a contiguous substring of `hay`?  Embeds the Python
membership test `pat in hay`. -/
def containsSub (hay pat : List Char) : Bool :=
  match hay with
  | [] => pat.isEmpty
  | _ :: cs => startsWithSeg hay pat || containsSub cs pat

/-- Match the literal pattern `pat` case-insensitively at the head of `s`;
on success return the matched text (with its original case) and the rest. -/
def matchCI : List Char → List Char → Option (List Char × List Char)
  | [], s => some ([], s)
  | _ :: _, [] => none
  | p :: ps, c :: cs =>
    if c.toLower = p.toLower then
      match matchCI ps cs with
      | some (m, rest) => some (c :: m, rest)
      | none => none
    else none

/-! ### Data model (`ComponentType`, `PatentComponent`, `PatentConnection`) -/

/-- The `ComponentType` enum.  The Python `Enum` assigns the values
`"rectangle"`, `"cylinder"`, `"diamond"`, `"parallelogram"`, `"cylinder"`,
`"rectangle"`, `"parallelogram"`, `"parallelogram"`, `"circle"`,
`"document"` to its ten declared names; a Python `Enum` member with a value
already used becomes an *alias* of the earlier member, so the runtime type
has exactly six distinct members — `PROCESS`, `DATABASE`, `DECISION`,
`INTERFACE`, `NETWORK`, `DOCUMENT` — and `STORAGE is DATABASE`,
`CONTROLLER is PROCESS`, `SENSOR is INTERFACE`, `DISPLAY is INTERFACE`. -/
inductive ComponentType
  | PROCESS | DATABASE | DECISION | INTERFACE | NETWORK | DOCUMENT
deriving DecidableEq, Repr

/-- Alias `ComponentType.STORAGE` — alias of `DATABASE` (duplicate enum value
`"cylinder"`). -/
def ComponentType.STORAGE : ComponentType := .DATABASE

/-- Alias `ComponentType.CONTROLLER` — alias of `PROCESS` (duplicate enum value
`"rectangle"`). -/
def ComponentType.CONTROLLER : ComponentType := .PROCESS

/-- Alias `ComponentType.SENSOR` — alias of `INTERFACE` (duplicate enum value
`"parallelogram"`). -/
def ComponentType.SENSOR : ComponentType := .INTERFACE

/-- Alias `ComponentType.DISPLAY` — alias of `INTERFACE` (duplicate enum value
`"parallelogram"`). -/
def ComponentType.DISPLAY : ComponentType := .INTERFACE

/-- Attribute `ComponentType.name` of the Python enum member (aliases report the
canonical member's name). -/
def ComponentType.pyName : ComponentType → List Char
  | .PROCESS => sl "PROCESS"
  | .DATABASE => sl "DATABASE"
  | .DECISION => sl "DECISION"
  | .INTERFACE => sl "INTERFACE"
  | .NETWORK => sl "NETWORK"
  | .DOCUMENT => sl "DOCUMENT"

/-- The `PatentComponent` dataclass. -/
structure PatentComponent where
  name : List Char
  reference_num : Nat
  component_type : ComponentType
  description : List Char := []
deriving DecidableEq, Repr

/-- The `PatentConnection` dataclass. -/
structure PatentConnection where
  from_component : List Char
  to_component : List Char
  label : List Char
  connection_type : List Char := sl "data_flow"
deriving DecidableEq, Repr

/-- The node identifier `f"COMP{reference_num}"`. -/
def compRef (n : Nat) : List Char := sl "COMP" ++ natStr n

/-! ### The classifier tables (`PatentClaimsParser.__init__`) -/

/-- Insert into a Python dict: an existing key keeps its position and gets
the new value, a new key is appended. -/
def dictInsert {K V : Type} [DecidableEq K] :
    List (K × V) → K → V → List (K × V)
  | [], k, v => [(k, v)]
  | (k', v') :: rest, k, v =>
    if k' = k then (k, v) :: rest else (k', v') :: dictInsert rest k v

/-- Evaluate a Python dict literal: later duplicate keys overwrite earlier
values in place. -/
def pyDict {K V : Type} [DecidableEq K] (entries : List (K × V)) : List (K × V) :=
  entries.foldl (fun d kv => dictInsert d kv.1 kv.2) []

/-- The entries of the `self.component_patterns` dict literal, as written in
`PatentClaimsParser.__init__`.  Note the keys `CONTROLLER`, `SENSOR` and
`DISPLAY` are enum aliases of `PROCESS`, `INTERFACE` and `INTERFACE`. -/
def component_pattern_entries : List (ComponentType × List (List Char)) :=
  [ (.PROCESS, [sl "processing unit", sl "processor", sl "processing system",
      sl "computing device", sl "processing module"]),
    (.DATABASE, [sl "database", sl "data store", sl "storage system", sl "memory",
      sl "data repository", sl "storage device"]),
    (.CONTROLLER, [sl "controller", sl "control unit", sl "control system",
      sl "control module", sl "control device"]),
    (.INTERFACE, [sl "interface", sl "user interface", sl "communication interface",
      sl "network interface", sl "input interface"]),
    (.SENSOR, [sl "sensor", sl "detector", sl "monitoring device",
      sl "measurement device", sl "input device"]),
    (.DISPLAY, [sl "display", sl "screen", sl "monitor", sl "output device",
      sl "visual display", sl "user display"]) ]

/-- Table `self.component_patterns`: the dict the literal actually builds.  The
`CONTROLLER` entry overwrites the `PROCESS` patterns, and the `SENSOR` and
then `DISPLAY` entries overwrite the `INTERFACE` patterns, so the dict has
three keys: `PROCESS` (controller patterns), `DATABASE` (database
patterns), `INTERFACE` (display patterns). -/
def component_patterns : List (ComponentType × List (List Char)) :=
  pyDict component_pattern_entries

/-- Library `self.relationship_patterns`, in list order. -/
def relationship_patterns : List (List Char) :=
  [ sl "connected to", sl "coupled to", sl "in communication with",
    sl "operatively connected", sl "electrically connected",
    sl "configured to receive", sl "configured to send",
    sl "transmits to", sl "receives from" ]

/-! ### `_classify_component` -/

/-- The first-match-wins scan of `_classify_component`, over an arbitrary
pattern table (the table is an attribute of `self` in the source). -/
def classifyOver (tbl : List (ComponentType × List (List Char)))
    (name_lower : List Char) : ComponentType :=
  match tbl with
  | [] => .PROCESS
  | (t, pats) :: rest =>
    if pats.any (fun p => containsSub name_lower p) then t
    else classifyOver rest name_lower

/-- Method `PatentClaimsParser._classify_component`. -/
def classify_component (component_name : List Char) : ComponentType :=
  classifyOver component_patterns (lowerStr component_name)

/-! ### The citation regex `([a-zA-Z\s]+?)\s*\((\d+)\)` -/

/-- Match `\s*\((\d+)\)` at the head of `s`: skip whitespace greedily, then
require `(`, a nonempty digit run, and `)`; return the digits and the rest. -/
def matchParenNum : List Char → Option (List Char × List Char)
  | [] => none
  | c :: cs =>
    if isSpaceChar c then matchParenNum cs
    else if c == '(' then
      match cs.span isDigitChar with
      | ([], _) => none
      | (ds, rest) =>
        match rest with
        | ')' :: rest2 => some (ds, rest2)
        | _ => none
    else none

/-- Try the whole citation regex at the current position: consume name
characters one at a time (shortest first, the non-greedy `+?`), attempting
`\s*\((\d+)\)` after each.  Returns (group 1 reversed onto `acc`, digits,
rest of the text after the match). -/
def matchCitationCore (acc : List Char) :
    List Char → Option (List Char × List Char × List Char)
  | [] => none
  | c :: cs =>
    if isNameChar c then
      match matchParenNum cs with
      | some (ds, rest) => some ((c :: acc).reverse, ds, rest)
      | none => matchCitationCore (c :: acc) cs
    else none

/-- The `re.findall` scan for the citation regex: try each start position from
the left; after a match, resume at the match end (non-overlapping). -/
def findCitationsFuel : Nat → List Char → List (List Char × List Char)
  | 0, _ => []
  | _ + 1, [] => []
  | n + 1, c :: cs =>
    match matchCitationCore [] (c :: cs) with
    | some (g, ds, rest) => (g, ds) :: findCitationsFuel n rest
    | none => findCitationsFuel n cs

/-- Python `re.findall(r'([a-zA-Z\s]+?)\s*\((\d+)\)', text)`. -/
def findCitations (text : List Char) : List (List Char × List Char) :=
  findCitationsFuel text.length text

/-! ### The word regex `rf'\b{pattern}\b'` with `re.IGNORECASE` -/

/-- The `re.findall` scan for `rf'\b{pat}\b'`, IGNORECASE.  `bOK` records
whether a word boundary holds before the current position (the previous
character, if any, is not a word character; every table pattern starts and
ends with a letter). -/
def findWordAux (pat : List Char) : Nat → Bool → List Char → List (List Char)
  | 0, _, _ => []
  | _ + 1, _, [] => []
  | n + 1, bOK, c :: cs =>
    match (if bOK then matchCI pat (c :: cs) else none) with
    | some (m, rest) =>
      if rest.isEmpty || !isWordChar (rest.headD ' ') then
        m :: findWordAux pat n (!isWordChar (m.getLastD c)) rest
      else findWordAux pat n (!isWordChar c) cs
    | none => findWordAux pat n (!isWordChar c) cs

/-- Python `re.findall(rf'\b{pat}\b', text, re.IGNORECASE)` for a literal `pat`. -/
def findWordMatches (pat text : List Char) : List (List Char) :=
  findWordAux pat (text.length + 1) true text

/-! ### `_extract_components` -/

/-- The sequence of (category, matched text) pairs visited by the fallback
loop nest of `_extract_components`, over an arbitrary table. -/
def fallbackMatchesOver (tbl : List (ComponentType × List (List Char)))
    (text : List Char) : List (ComponentType × List Char) :=
  tbl.flatMap fun tp =>
    tp.2.flatMap fun pat =>
      (findWordMatches pat text).map fun m => (tp.1, m)

/-- The fallback loop nest over `self.component_patterns`. -/
def fallbackMatches (text : List Char) : List (ComponentType × List Char) :=
  fallbackMatchesOver component_patterns text

/-- One iteration of the fallback loop body: skip the match if a component
with the same lower-cased name exists, otherwise append a new component and
advance the reference counter by 2. -/
def fallbackStep (st : List PatentComponent × Nat)
    (tm : ComponentType × List Char) : List PatentComponent × Nat :=
  if st.1.any (fun comp => decide (lowerStr comp.name = lowerStr tm.2)) then st
  else (st.1 ++ [{ name := titleCase tm.2, reference_num := st.2,
                   component_type := tm.1 }], st.2 + 2)

/-- The keyword-scan fallback of `_extract_components`: counter starts at
10, increments by 2 per new component. -/
def extractFallback (text : List Char) : List PatentComponent :=
  ((fallbackMatches text).foldl fallbackStep ([], 10)).1

/-- Method `PatentClaimsParser._extract_components`. -/
def extract_components (text : List Char) : List PatentComponent :=
  let comps := (findCitations text).map fun gd =>
    { name := stripStr gd.1, reference_num := digitsToNat gd.2,
      component_type := classify_component (stripStr gd.1) : PatentComponent }
  if comps.isEmpty then extractFallback text else comps

/-! ### The relationship regex `rf'{n1}.*?{pat}.*?{n2}'` with `re.IGNORECASE` -/

/-- Existence of a match of `.*?{n2}` in `s`, where the gap may only consume
characters satisfying `gapOk`. -/
def matchTail2 (gapOk : Char → Bool) (n2 : List Char) : List Char → Bool
  | [] => (matchCI n2 []).isSome
  | c :: cs => (matchCI n2 (c :: cs)).isSome || (gapOk c && matchTail2 gapOk n2 cs)

/-- Existence of a match of `.*?{pat}.*?{n2}` in `s`. -/
def matchTail1 (gapOk : Char → Bool) (pat n2 : List Char) : List Char → Bool
  | [] =>
    match matchCI pat [] with
    | some (_, r) => matchTail2 gapOk n2 r
    | none => false
  | c :: cs =>
    (match matchCI pat (c :: cs) with
     | some (_, r) => matchTail2 gapOk n2 r
     | none => false)
    || (gapOk c && matchTail1 gapOk pat n2 cs)

/-- Python `re.search(rf'{n1}.*?{pat}.*?{n2}', s)`: try the sequence
`n1`, gap, `pat`, gap, `n2` from every start position. -/
def searchGo (gapOk : Char → Bool) (n1 pat n2 : List Char) : List Char → Bool
  | [] =>
    match matchCI n1 [] with
    | some (_, r) => matchTail1 gapOk pat n2 r
    | none => false
  | c :: cs =>
    (match matchCI n1 (c :: cs) with
     | some (_, r) => matchTail1 gapOk pat n2 r
     | none => false)
    || searchGo gapOk n1 pat n2 cs

/-- Python `re.search(rf'{comp1.name}.*?{pattern}.*?{comp2.name}', text, re.IGNORECASE)`
of `_extract_relationships`: in Python `re`, `.` matches any character except
a newline. -/
def relSearch (text n1 pat n2 : List Char) : Bool :=
  searchGo (fun c => decide (c ≠ '\n')) n1 pat n2 text

/-- The connection built in the body of `_extract_relationships`. -/
def mkConnection (c1 c2 : PatentComponent) (pat : List Char) : PatentConnection :=
  { from_component := compRef c1.reference_num,
    to_component := compRef c2.reference_num,
    label := titleCase pat }

/-- The inner pattern loop of `_extract_relationships` for one pair: the
first matching connector phrase (library order) yields the connection, and
the `break` stops the scan. -/
def firstRel (text : List Char) (c1 c2 : PatentComponent) : Option PatentConnection :=
  (relationship_patterns.find? fun pat => relSearch text c1.name pat c2.name).map
    (mkConnection c1 c2)

/-- The pair loop of `_extract_relationships`: for each `i`, the partner
runs over `components[i+1:]`. -/
def relLoop (text : List Char) : List PatentComponent → List PatentConnection
  | [] => []
  | c :: rest => rest.filterMap (firstRel text c) ++ relLoop text rest

/-- Method `PatentClaimsParser._extract_relationships`. -/
def extract_relationships (text : List Char) (components : List PatentComponent) :
    List PatentConnection :=
  relLoop text components

/-- Method `PatentClaimsParser.parse_claims`. -/
def parse_claims (claims_text : List Char) :
    List PatentComponent × List PatentConnection :=
  let components := extract_components claims_text
  (components, extract_relationships claims_text components)

/-! ### Spec-side definitions -/

/-- Modelled from the spec: the spec's relationship condition, "the first
component's name, followed (anywhere later in the text, unbounded distance —
a simple substring existence test [...]) by any one connector phrase [...],
followed by the second component's name — all case-insensitive"; the same
search as the source's but with an unrestricted gap. -/
def specLinked (text n1 pat n2 : List Char) : Bool :=
  searchGo (fun _ => true) n1 pat n2 text

/-- A decomposition witnessing `n1`, then `pat`, then `n2` as
case-insensitive contiguous occurrences in order, with every skipped
character between them satisfying `gapOk`. -/
def LinkedVia (gapOk : Char → Bool) (text n1 pat n2 : List Char) : Prop :=
  ∃ a m1 g1 m2 g2 m3 b, text = a ++ m1 ++ g1 ++ m2 ++ g2 ++ m3 ++ b ∧
    lowerStr m1 = lowerStr n1 ∧ lowerStr m2 = lowerStr pat ∧
    lowerStr m3 = lowerStr n2 ∧
    (∀ c ∈ g1, gapOk c = true) ∧ (∀ c ∈ g2, gapOk c = true)

/-- The ordered pairs `(components[i], components[j])`, `i < j`, in loop
order. -/
def specPairs : List PatentComponent → List (PatentComponent × PatentComponent)
  | [] => []
  | c :: rest => rest.map (fun d => (c, d)) ++ specPairs rest

/-! ### `MermaidGenerator` -/

/-- Constant `self.mermaid_config` (verbatim). -/
def mermaid_config : List Char := sl
  "%%\x7binit: \x7b\n  \x27theme\x27:\x27base\x27, \n  \x27themeVariables\x27: \x7b \n    \x27primaryColor\x27: \x27#ffffff\x27, \n    \x27primaryTextColor\x27: \x27#000000\x27, \n    \x27primaryBorderColor\x27: \x27#000000\x27, \n    \x27lineColor\x27: \x27#000000\x27, \n    \x27background\x27: \x27#ffffff\x27, \n    \x27mainBkg\x27: \x27#ffffff\x27, \n    \x27secondBkg\x27: \x27#ffffff\x27, \n    \x27tertiaryBkg\x27: \x27#ffffff\x27, \n    \x27edgeLabelBackground\x27: \x27#ffffff\x27,\n    \x27clusterBkg\x27: \x27rgba(0,0,0,0)\x27,\n    \x27altBackground\x27: \x27#ffffff\x27,\n    \x27cScale0\x27: \x27#ffffff\x27, \n    \x27cScale1\x27: \x27#ffffff\x27, \n    \x27cScale2\x27: \x27#ffffff\x27\n  \x7d, \n  \x27flowchart\x27: \x7b\x27curve\x27: \x27linear\x27\x7d, \n  \x27fontSize\x27: 20\n\x7d\x7d%%"

/-- Method `PatentComponent.to_mermaid_node`: the `if`/`elif` chain of the source.
Because `DISPLAY` is an alias of `INTERFACE`, the `DISPLAY` branch is
unreachable (the `INTERFACE or SENSOR` test above it already catches it). -/
def to_mermaid_node (c : PatentComponent) : List Char :=
  let node_id := compRef c.reference_num
  let display_name := c.name ++ [' '] ++ natStr c.reference_num
  if c.component_type = .DATABASE ∨ c.component_type = .STORAGE then
    node_id ++ sl "[(\"" ++ display_name ++ sl "\")]"
  else if c.component_type = .DECISION then
    node_id ++ sl "\x7b" ++ display_name ++ sl "\x7d"
  else if c.component_type = .INTERFACE ∨ c.component_type = .SENSOR then
    node_id ++ sl "[/" ++ display_name ++ sl "/]"
  else if c.component_type = .DISPLAY then
    node_id ++ sl "[/\"" ++ display_name ++ sl "\"/]"
  else if c.component_type = .NETWORK then
    node_id ++ sl "((" ++ display_name ++ sl "))"
  else if c.component_type = .DOCUMENT then
    node_id ++ sl "[[\"" ++ display_name ++ sl "\"]]"
  else
    node_id ++ sl "[" ++ display_name ++ sl "]"

/-- Method `PatentConnection.to_mermaid_connection`. -/
def to_mermaid_connection (conn : PatentConnection) : List Char :=
  let styled_label := sl "<span style=\"font-size:24px;font-weight:bold;background:white;padding:6px\">"
    ++ conn.label ++ sl "</span>"
  conn.from_component ++ sl " -.->|\"" ++ styled_label ++ sl "\"| " ++ conn.to_component

/-- Insert a component into the grouping structure: Python dict insertion
order (first occurrence of each type), appending within a type. -/
def insertGrp : List (ComponentType × List PatentComponent) → PatentComponent →
    List (ComponentType × List PatentComponent)
  | [], c => [(c.component_type, [c])]
  | (t, cs) :: rest, c =>
    if t = c.component_type then (t, cs ++ [c]) :: rest
    else (t, cs) :: insertGrp rest c

/-- Method `MermaidGenerator._group_components_by_type`. -/
def group_components_by_type (components : List PatentComponent) :
    List (ComponentType × List PatentComponent) :=
  components.foldl insertGrp []

/-- Method `MermaidGenerator._generate_subgraph`. -/
def generate_subgraph (comp_type : ComponentType)
    (components : List PatentComponent) : List (List Char) :=
  let subgraph_name := comp_type.pyName ++ sl "_SYS"
  let subgraph_title :=
    (comp_type.pyName.map fun c => if c = '_' then ' ' else c) ++ sl " SYSTEM"
  [ sl "    subgraph " ++ subgraph_name ++ sl " [\" \"]",
    sl "        direction TB",
    sl "        " ++ subgraph_name ++ sl "_TITLE[\"" ++ subgraph_title ++ sl "\"]" ]
  ++ components.map (fun c => sl "        " ++ to_mermaid_node c)
  ++ (match components with
      | [] => []
      | c0 :: _ => [sl "        " ++ subgraph_name ++ sl "_TITLE ~~~ COMP"
          ++ natStr c0.reference_num])
  ++ [sl "    end", []]

/-- Method `MermaidGenerator._generate_styling` (one string, joined by newlines). -/
def generate_styling (components : List PatentComponent) : List Char :=
  let styling_lines :=
    [ sl "    %% USPTO-Compliant Styling",
      sl "    classDef default fill:#ffffff,stroke:#000000,stroke-width:3px,color:#000000,font-size:20px,font-weight:bold" ]
  let comp_ids := components.map fun c => compRef c.reference_num
  let styling_lines :=
    if comp_ids.isEmpty then styling_lines
    else styling_lines ++ [sl "    class " ++ (comp_ids.intersperse (sl ",")).flatten ++ sl " default"]
  ((styling_lines.intersperse (sl "\n")).flatten)

/-- The component section of `generate_diagram`: one subgraph per
multi-member type, a bare indented node for singleton types. -/
def componentSection (grouped : List (ComponentType × List PatentComponent)) :
    List (List Char) :=
  grouped.flatMap fun tc =>
    if tc.2.length > 1 then generate_subgraph tc.1 tc.2
    else tc.2.map fun c => sl "    " ++ to_mermaid_node c

/-- The `lines` list built by `MermaidGenerator.generate_diagram`, before the
final `"\n".join`. -/
def generateLines (components : List PatentComponent)
    (connections : List PatentConnection) (title : List Char) : List (List Char) :=
  [ mermaid_config, [], sl "flowchart TB",
    sl "    TITLE[\"" ++ title ++ sl "\"]", [] ]
  ++ componentSection (group_components_by_type components)
  ++ [[]]
  ++ connections.map (fun conn => sl "    " ++ to_mermaid_connection conn)
  ++ [[], generate_styling components]

/-- Method `MermaidGenerator.generate_diagram`. -/
def generate_diagram (components : List PatentComponent)
    (connections : List PatentConnection) (title : List Char) : List Char :=
  ((generateLines components connections title).intersperse (sl "\n")).flatten

/-! ### Concrete instances used by the claim theorems -/

/-- Component `"processor" (10)` as extracted from the C1 input. -/
def procComp : PatentComponent := ⟨sl "processor", 10, .PROCESS, []⟩

/-- Component `"is connected to database" (12)` as extracted from the C1
input. -/
def connDbComp : PatentComponent := ⟨sl "is connected to database", 12, .DATABASE, []⟩

/-- Fallback component `"Display"` (id 10, INTERFACE). -/
def dispComp : PatentComponent := ⟨sl "Display", 10, .INTERFACE, []⟩

/-- Fallback component `"Monitor"` (id 12, INTERFACE). -/
def monComp : PatentComponent := ⟨sl "Monitor", 12, .INTERFACE, []⟩

/-- The self-loop connection COMP10 → COMP10 labelled `"Connected To"`. -/
def loopConn : PatentConnection := ⟨sl "COMP10", sl "COMP10", sl "Connected To", sl "data_flow"⟩

/-- The connection COMP10 → COMP12 labelled `"Connected To"`. -/
def dispMonConn : PatentConnection := ⟨sl "COMP10", sl "COMP12", sl "Connected To", sl "data_flow"⟩

/-- A sensor-category component (SENSOR is the INTERFACE member). -/
def sensorComp : PatentComponent := ⟨sl "Sensor", 10, .SENSOR, []⟩

/-- A second sensor-category component. -/
def detectorComp : PatentComponent := ⟨sl "Detector", 12, .SENSOR, []⟩

/-- A third sensor-category component. -/
def monDevComp : PatentComponent := ⟨sl "Monitoring Device", 14, .SENSOR, []⟩

/-- A database-category component. -/
def dbComp : PatentComponent := ⟨sl "Database", 16, .DATABASE, []⟩

/-! ### Character-level lemmas -/

theorem toNat_ofNat_lt (n : Nat) (h : n < 55296) : (Char.ofNat n).toNat = n := by
  unfold Char.ofNat
  rw [dif_pos (Or.inl h)]
  rfl

theorem toLower_toUpper (c : Char) : c.toUpper.toLower = c.toLower := by
  unfold Char.toUpper Char.toLower
  by_cases h : c.toNat ≥ 97 ∧ c.toNat ≤ 122
  · rw [if_pos h]
    have h2 : (Char.ofNat (c.toNat - 32)).toNat = c.toNat - 32 :=
      toNat_ofNat_lt _ (by omega)
    rw [h2]
    rw [if_pos (by omega : c.toNat - 32 ≥ 65 ∧ c.toNat - 32 ≤ 90)]
    have h3 : c.toNat - 32 + 32 = c.toNat := by omega
    rw [h3, Char.ofNat_toNat]
    rw [if_neg (by omega : ¬(c.toNat ≥ 65 ∧ c.toNat ≤ 90))]
  · rw [if_neg h]

theorem toLower_toLower (c : Char) : c.toLower.toLower = c.toLower := by
  unfold Char.toLower
  by_cases h : c.toNat ≥ 65 ∧ c.toNat ≤ 90
  · rw [if_pos h]
    have h2 : (Char.ofNat (c.toNat + 32)).toNat = c.toNat + 32 :=
      toNat_ofNat_lt _ (by omega)
    rw [h2, if_neg (by omega : ¬(c.toNat + 32 ≥ 65 ∧ c.toNat + 32 ≤ 90))]
  · rw [if_neg h, if_neg h]

theorem lowerStr_titleAux (b : Bool) (s : List Char) :
    lowerStr (titleAux b s) = lowerStr s := by
  induction s generalizing b with
  | nil => rfl
  | cons c cs ih =>
    cases b <;> by_cases h : isAlphaChar c = true <;>
      simp [titleAux, h, lowerStr, toLower_toLower, toLower_toUpper,
        show ∀ b, List.map Char.toLower (titleAux b cs) = List.map Char.toLower cs
          from fun b => ih b]

theorem lowerStr_titleCase (s : List Char) : lowerStr (titleCase s) = lowerStr s :=
  lowerStr_titleAux false s

/-! ### Characterisation of the case-insensitive literal match -/

theorem matchCI_eq_some (pat : List Char) : ∀ (s m r : List Char),
    matchCI pat s = some (m, r) ↔ s = m ++ r ∧ lowerStr m = lowerStr pat := by
  induction pat with
  | nil =>
    intro s m r
    constructor
    · intro h
      simp only [matchCI, Option.some.injEq, Prod.mk.injEq] at h
      obtain ⟨h1, h2⟩ := h
      subst h1; subst h2; simp [lowerStr]
    · rintro ⟨h1, h2⟩
      have hm : m = [] := by
        cases m with
        | nil => rfl
        | cons a as => simp [lowerStr] at h2
      subst hm
      simp only [List.nil_append] at h1
      subst h1
      rfl
  | cons p ps ih =>
    intro s m r
    cases s with
    | nil =>
      simp only [matchCI]
      constructor
      · intro h; exact absurd h (by simp)
      · rintro ⟨h1, h2⟩
        obtain ⟨hm, _⟩ := List.append_eq_nil.mp h1.symm
        subst hm
        simp [lowerStr] at h2
    | cons c cs =>
      simp only [matchCI]
      by_cases hc : c.toLower = p.toLower
      · rw [if_pos hc]
        cases hmc : matchCI ps cs with
        | none =>
          constructor
          · intro h; exact absurd h (by simp)
          · rintro ⟨h1, h2⟩
            exfalso
            cases m with
            | nil => simp [lowerStr] at h2
            | cons d m2 =>
              simp only [List.cons_append, List.cons.injEq] at h1
              obtain ⟨hd, hcs⟩ := h1
              subst hd
              simp only [lowerStr, List.map_cons, List.cons.injEq] at h2
              have : matchCI ps cs = some (m2, r) := (ih cs m2 r).mpr ⟨hcs, h2.2⟩
              rw [hmc] at this
              exact absurd this (by simp)
        | some mr =>
          obtain ⟨m2, r2⟩ := mr
          have hIH := (ih cs m2 r2).mp hmc
          simp only [Option.some.injEq, Prod.mk.injEq]
          constructor
          · rintro ⟨h1, h2⟩
            subst h1; subst h2
            refine ⟨by simp [hIH.1], ?_⟩
            simp only [lowerStr, List.map_cons, List.cons.injEq]
            exact ⟨hc, hIH.2⟩
          · rintro ⟨h1, h2⟩
            cases m with
            | nil => simp [lowerStr] at h2
            | cons d m3 =>
              simp only [List.cons_append, List.cons.injEq] at h1
              obtain ⟨hd, hcs⟩ := h1
              subst hd
              simp only [lowerStr, List.map_cons, List.cons.injEq] at h2
              have : matchCI ps cs = some (m3, r) := (ih cs m3 r).mpr ⟨hcs, h2.2⟩
              rw [hmc] at this
              simp only [Option.some.injEq, Prod.mk.injEq] at this
              exact ⟨by rw [this.1], this.2⟩
      · rw [if_neg hc]
        constructor
        · intro h; exact absurd h (by simp)
        · rintro ⟨h1, h2⟩
          exfalso
          cases m with
          | nil => simp [lowerStr] at h2
          | cons d m2 =>
            simp only [List.cons_append, List.cons.injEq] at h1
            simp only [lowerStr, List.map_cons, List.cons.injEq] at h2
            exact hc (h1.1 ▸ h2.1)

theorem matchTail2_iff (gapOk : Char → Bool) (n2 : List Char) : ∀ s : List Char,
    matchTail2 gapOk n2 s = true ↔
      ∃ g m b, s = g ++ m ++ b ∧ lowerStr m = lowerStr n2 ∧
        ∀ c ∈ g, gapOk c = true := by
  intro s
  induction s with
  | nil =>
    simp only [matchTail2]
    cases hm : matchCI n2 [] with
    | none =>
      constructor
      · intro h; exact absurd h (by simp)
      · rintro ⟨g, m, b, h1, h2, _⟩
        exfalso
        obtain ⟨hgm, hb⟩ := List.append_eq_nil.mp h1.symm
        obtain ⟨hg, hm2⟩ := List.append_eq_nil.mp hgm
        subst hm2
        have : matchCI n2 [] = some ([], []) :=
          (matchCI_eq_some n2 [] [] []).mpr ⟨rfl, h2⟩
        rw [hm] at this
        exact absurd this (by simp)
    | some mr =>
      obtain ⟨m, r⟩ := mr
      have h := (matchCI_eq_some n2 [] m r).mp hm
      obtain ⟨hm2, hr⟩ := List.append_eq_nil.mp h.1.symm
      subst hm2
      simp only [Option.isSome_some, true_iff]
      exact ⟨[], [], [], by simp [hr], h.2, by simp⟩
  | cons c cs ih =>
    simp only [matchTail2]
    constructor
    · intro h
      rw [Bool.or_eq_true] at h
      rcases h with h | h
      · rw [Option.isSome_iff_exists] at h
        obtain ⟨⟨m, r⟩, hm⟩ := h
        obtain ⟨h1, h2⟩ := (matchCI_eq_some n2 _ m r).mp hm
        exact ⟨[], m, r, by simpa using h1, h2, by simp⟩
      · rw [Bool.and_eq_true] at h
        obtain ⟨hg, ht⟩ := h
        obtain ⟨g, m, b, h1, h2, h3⟩ := ih.mp ht
        refine ⟨c :: g, m, b, by simp [h1], h2, ?_⟩
        intro x hx
        rcases List.mem_cons.mp hx with hx | hx
        · subst hx; exact hg
        · exact h3 x hx
    · rintro ⟨g, m, b, h1, h2, h3⟩
      cases g with
      | nil =>
        rw [Bool.or_eq_true]
        left
        have : matchCI n2 (c :: cs) = some (m, b) :=
          (matchCI_eq_some n2 _ m b).mpr ⟨by simpa using h1, h2⟩
        simp [this]
      | cons d g2 =>
        simp only [List.cons_append, List.cons.injEq] at h1
        obtain ⟨hd, hcs⟩ := h1
        subst hd
        rw [Bool.or_eq_true]
        right
        rw [Bool.and_eq_true]
        exact ⟨h3 c (by simp), ih.mpr ⟨g2, m, b, hcs, h2, fun x hx => h3 x (by simp [hx])⟩⟩

theorem matchTail1_iff (gapOk : Char → Bool) (pat n2 : List Char) : ∀ s : List Char,
    matchTail1 gapOk pat n2 s = true ↔
      ∃ g m t, s = g ++ m ++ t ∧ lowerStr m = lowerStr pat ∧
        (∀ c ∈ g, gapOk c = true) ∧ matchTail2 gapOk n2 t = true := by
  intro s
  induction s with
  | nil =>
    simp only [matchTail1]
    cases hm : matchCI pat [] with
    | none =>
      constructor
      · intro h; exact absurd h (by simp)
      · rintro ⟨g, m, t, h1, h2, _, _⟩
        exfalso
        obtain ⟨hgm, ht⟩ := List.append_eq_nil.mp h1.symm
        obtain ⟨hg, hm2⟩ := List.append_eq_nil.mp hgm
        subst hm2
        have : matchCI pat [] = some ([], []) :=
          (matchCI_eq_some pat [] [] []).mpr ⟨rfl, h2⟩
        rw [hm] at this
        exact absurd this (by simp)
    | some mr =>
      obtain ⟨m, r⟩ := mr
      have h := (matchCI_eq_some pat [] m r).mp hm
      obtain ⟨hm2, hr⟩ := List.append_eq_nil.mp h.1.symm
      subst hm2; subst hr
      constructor
      · intro ht
        exact ⟨[], [], [], rfl, h.2, by simp, ht⟩
      · rintro ⟨g, m2, t, h1, h2, _, h4⟩
        obtain ⟨hgm, ht⟩ := List.append_eq_nil.mp h1.symm
        subst ht
        exact h4
  | cons c cs ih =>
    simp only [matchTail1]
    constructor
    · intro h
      rw [Bool.or_eq_true] at h
      rcases h with h | h
      · cases hm : matchCI pat (c :: cs) with
        | none => rw [hm] at h; exact absurd h (by simp)
        | some mr =>
          obtain ⟨m, r⟩ := mr
          rw [hm] at h
          obtain ⟨h1, h2⟩ := (matchCI_eq_some pat _ m r).mp hm
          exact ⟨[], m, r, by simpa using h1, h2, by simp, h⟩
      · rw [Bool.and_eq_true] at h
        obtain ⟨hg, ht⟩ := h
        obtain ⟨g, m, t, h1, h2, h3, h4⟩ := ih.mp ht
        refine ⟨c :: g, m, t, by simp [h1], h2, ?_, h4⟩
        intro x hx
        rcases List.mem_cons.mp hx with hx | hx
        · subst hx; exact hg
        · exact h3 x hx
    · rintro ⟨g, m, t, h1, h2, h3, h4⟩
      cases g with
      | nil =>
        rw [Bool.or_eq_true]
        left
        have : matchCI pat (c :: cs) = some (m, t) :=
          (matchCI_eq_some pat _ m t).mpr ⟨by simpa using h1, h2⟩
        rw [this]
        exact h4
      | cons d g2 =>
        simp only [List.cons_append, List.cons.injEq] at h1
        obtain ⟨hd, hcs⟩ := h1
        subst hd
        rw [Bool.or_eq_true]
        right
        rw [Bool.and_eq_true]
        exact ⟨h3 c (by simp),
          ih.mpr ⟨g2, m, t, hcs, h2, fun x hx => h3 x (by simp [hx]), h4⟩⟩

theorem searchGo_iff (gapOk : Char → Bool) (n1 pat n2 : List Char) : ∀ s : List Char,
    searchGo gapOk n1 pat n2 s = true ↔
      ∃ a m t, s = a ++ m ++ t ∧ lowerStr m = lowerStr n1 ∧
        matchTail1 gapOk pat n2 t = true := by
  intro s
  induction s with
  | nil =>
    simp only [searchGo]
    cases hm : matchCI n1 [] with
    | none =>
      constructor
      · intro h; exact absurd h (by simp)
      · rintro ⟨a, m, t, h1, h2, _⟩
        exfalso
        obtain ⟨ham, ht⟩ := List.append_eq_nil.mp h1.symm
        obtain ⟨ha, hm2⟩ := List.append_eq_nil.mp ham
        subst hm2
        have : matchCI n1 [] = some ([], []) :=
          (matchCI_eq_some n1 [] [] []).mpr ⟨rfl, h2⟩
        rw [hm] at this
        exact absurd this (by simp)
    | some mr =>
      obtain ⟨m, r⟩ := mr
      have h := (matchCI_eq_some n1 [] m r).mp hm
      obtain ⟨hm2, hr⟩ := List.append_eq_nil.mp h.1.symm
      subst hm2; subst hr
      constructor
      · intro ht
        exact ⟨[], [], [], rfl, h.2, ht⟩
      · rintro ⟨a, m2, t, h1, h2, h4⟩
        obtain ⟨ham, ht⟩ := List.append_eq_nil.mp h1.symm
        subst ht
        exact h4
  | cons c cs ih =>
    simp only [searchGo]
    constructor
    · intro h
      rw [Bool.or_eq_true] at h
      rcases h with h | h
      · cases hm : matchCI n1 (c :: cs) with
        | none => rw [hm] at h; exact absurd h (by simp)
        | some mr =>
          obtain ⟨m, r⟩ := mr
          rw [hm] at h
          obtain ⟨h1, h2⟩ := (matchCI_eq_some n1 _ m r).mp hm
          exact ⟨[], m, r, by simpa using h1, h2, h⟩
      · obtain ⟨a, m, t, h1, h2, h4⟩ := ih.mp h
        exact ⟨c :: a, m, t, by simp [h1], h2, h4⟩
    · rintro ⟨a, m, t, h1, h2, h4⟩
      cases a with
      | nil =>
        rw [Bool.or_eq_true]
        left
        have : matchCI n1 (c :: cs) = some (m, t) :=
          (matchCI_eq_some n1 _ m t).mpr ⟨by simpa using h1, h2⟩
        rw [this]
        exact h4
      | cons d a2 =>
        simp only [List.cons_append, List.cons.injEq] at h1
        obtain ⟨hd, hcs⟩ := h1
        subst hd
        rw [Bool.or_eq_true]
        exact Or.inr (ih.mpr ⟨a2, m, t, hcs, h2, h4⟩)

/-- The three-stage regex search succeeds exactly on the decomposition
predicate `LinkedVia`. -/
theorem searchGo_linked (gapOk : Char → Bool) (text n1 pat n2 : List Char) :
    searchGo gapOk n1 pat n2 text = true ↔ LinkedVia gapOk text n1 pat n2 := by
  rw [searchGo_iff]
  constructor
  · rintro ⟨a, m1, t, h1, h2, h3⟩
    obtain ⟨g1, m2, t2, h4, h5, h6, h7⟩ := (matchTail1_iff gapOk pat n2 t).mp h3
    obtain ⟨g2, m3, b, h8, h9, h10⟩ := (matchTail2_iff gapOk n2 t2).mp h7
    refine ⟨a, m1, g1, m2, g2, m3, b, ?_, h2, h5, h9, h6, h10⟩
    subst h8; subst h4; subst h1
    simp [List.append_assoc]
  · rintro ⟨a, m1, g1, m2, g2, m3, b, h1, h2, h3, h4, h5, h6⟩
    refine ⟨a, m1, g1 ++ m2 ++ (g2 ++ m3 ++ b), ?_, h2, ?_⟩
    · subst h1; simp [List.append_assoc]
    · exact (matchTail1_iff gapOk pat n2 _).mpr
        ⟨g1, m2, g2 ++ m3 ++ b, rfl, h3, h5,
          (matchTail2_iff gapOk n2 _).mpr ⟨g2, m3, b, rfl, h4, h6⟩⟩

/-! ### Structure of the relationship loop -/

theorem relLoop_eq_pairs (text : List Char) : ∀ comps : List PatentComponent,
    relLoop text comps =
      (specPairs comps).filterMap (fun pr => firstRel text pr.1 pr.2) := by
  intro comps
  induction comps with
  | nil => rfl
  | cons c rest ih =>
    simp only [relLoop, specPairs, List.filterMap_append, ih, List.filterMap_map]
    rfl

theorem firstRel_eq_some_iff (text : List Char) (c1 c2 : PatentComponent)
    (conn : PatentConnection) :
    firstRel text c1 c2 = some conn ↔
      ∃ l1 p l2, relationship_patterns = l1 ++ p :: l2 ∧
        relSearch text c1.name p c2.name = true ∧
        (∀ q ∈ l1, relSearch text c1.name q c2.name = false) ∧
        conn = mkConnection c1 c2 p := by
  unfold firstRel
  rw [Option.map_eq_some']
  constructor
  · rintro ⟨p, hp, hconn⟩
    rw [List.find?_eq_some] at hp
    obtain ⟨hsearch, l1, l2, heq, hbefore⟩ := hp
    refine ⟨l1, p, l2, heq, hsearch, ?_, hconn.symm⟩
    intro q hq
    have := hbefore q hq
    simpa using this
  · rintro ⟨l1, p, l2, heq, hsearch, hbefore, hconn⟩
    refine ⟨p, ?_, hconn.symm⟩
    rw [List.find?_eq_some]
    refine ⟨hsearch, l1, l2, heq, ?_⟩
    intro q hq
    simpa using hbefore q hq

theorem firstRel_isSome_iff (text : List Char) (c1 c2 : PatentComponent) :
    (firstRel text c1 c2).isSome = true ↔
      ∃ p ∈ relationship_patterns, relSearch text c1.name p c2.name = true := by
  unfold firstRel
  cases hf : relationship_patterns.find? (fun pat => relSearch text c1.name pat c2.name) with
  | none =>
    rw [List.find?_eq_none] at hf
    constructor
    · intro h; simp at h
    · rintro ⟨p, hp, hs⟩
      exact absurd hs (by simpa using hf p hp)
  | some p =>
    constructor
    · intro _
      exact ⟨p, List.mem_of_find?_eq_some hf,
        List.find?_some (p := fun pat => relSearch text c1.name pat c2.name) hf⟩
    · intro _; simp

theorem relLoop_mem (text : List Char) : ∀ (comps : List PatentComponent)
    (conn : PatentConnection), conn ∈ relLoop text comps →
      ∃ c1 ∈ comps, ∃ c2 ∈ comps,
        conn.from_component = compRef c1.reference_num ∧
        conn.to_component = compRef c2.reference_num := by
  intro comps
  induction comps with
  | nil => intro conn h; simp [relLoop] at h
  | cons c rest ih =>
    intro conn h
    rw [relLoop, List.mem_append] at h
    rcases h with h | h
    · rw [List.mem_filterMap] at h
      obtain ⟨c2, hc2, hfr⟩ := h
      obtain ⟨l1, p, l2, _, _, _, hconn⟩ := (firstRel_eq_some_iff text c c2 conn).mp hfr
      subst hconn
      exact ⟨c, by simp, c2, by simp [hc2], rfl, rfl⟩
    · obtain ⟨c1, hc1, c2, hc2, h1, h2⟩ := ih conn h
      exact ⟨c1, by simp [hc1], c2, by simp [hc2], h1, h2⟩

/-! ### Invariants of the keyword-scan fallback fold -/

theorem fallback_fold_inv (L : List (ComponentType × List Char)) :
    ∀ st : List PatentComponent × Nat,
      st.2 = 10 + 2 * st.1.length →
      st.1.map (fun c => c.reference_num) =
        (List.range st.1.length).map (fun k => 10 + 2 * k) →
      (L.foldl fallbackStep st).2 = 10 + 2 * (L.foldl fallbackStep st).1.length ∧
      (L.foldl fallbackStep st).1.map (fun c => c.reference_num) =
        (List.range (L.foldl fallbackStep st).1.length).map (fun k => 10 + 2 * k) := by
  induction L with
  | nil => intro st h1 h2; exact ⟨h1, h2⟩
  | cons tm L ih =>
    intro st h1 h2
    rw [List.foldl_cons]
    apply ih
    · unfold fallbackStep
      split
      · exact h1
      · simp [h1, Nat.mul_add]
        omega
    · unfold fallbackStep
      split
      · exact h2
      · simp only [List.map_append, List.length_append, List.map_cons, List.map_nil,
          List.length_cons, List.length_nil]
        rw [h2, h1]
        rw [show st.1.length + (0 + 1) = st.1.length + 1 by omega, List.range_succ]
        simp

theorem fallback_fold_types (Q : ComponentType → Prop)
    (L : List (ComponentType × List Char)) :
    ∀ st : List PatentComponent × Nat,
      (∀ tm ∈ L, Q tm.1) →
      (∀ c ∈ st.1, Q c.component_type) →
      ∀ c ∈ (L.foldl fallbackStep st).1, Q c.component_type := by
  induction L with
  | nil => intro st _ hst; exact hst
  | cons tm L ih =>
    intro st hL hst
    rw [List.foldl_cons]
    apply ih
    · intro x hx; exact hL x (by simp [hx])
    · unfold fallbackStep
      split
      · exact hst
      · intro c hc
        rw [List.mem_append] at hc
        rcases hc with hc | hc
        · exact hst c hc
        · simp at hc
          subst hc
          exact hL tm (by simp)

/-! ### Characterisation of the classifier scan -/

theorem classifyOver_mem (nl : List Char) :
    ∀ tbl : List (ComponentType × List (List Char)),
      classifyOver tbl nl = .PROCESS ∨ classifyOver tbl nl ∈ tbl.map Prod.fst := by
  intro tbl
  induction tbl with
  | nil => left; rfl
  | cons tp rest ih =>
    obtain ⟨t, pats⟩ := tp
    unfold classifyOver
    split
    · right; simp
    · rcases ih with h | h
      · left; exact h
      · right; simp [h]

theorem classifyOver_of_first (nl : List Char) (t : ComponentType)
    (pats : List (List Char)) (l2 : List (ComponentType × List (List Char))) :
    ∀ l1 : List (ComponentType × List (List Char)),
      (∀ tp ∈ l1, tp.2.any (fun p => containsSub nl p) = false) →
      pats.any (fun p => containsSub nl p) = true →
      classifyOver (l1 ++ (t, pats) :: l2) nl = t := by
  intro l1
  induction l1 with
  | nil =>
    intro _ hmatch
    rw [List.nil_append]
    unfold classifyOver
    rw [if_pos hmatch]
  | cons tp rest ih =>
    intro hnone hmatch
    obtain ⟨t', pats'⟩ := tp
    rw [List.cons_append]
    unfold classifyOver
    rw [if_neg (by simp [hnone (t', pats') (by simp)])]
    exact ih (fun x hx => hnone x (by simp [hx])) hmatch

theorem classifyOver_of_none (nl : List Char) :
    ∀ tbl : List (ComponentType × List (List Char)),
      (∀ tp ∈ tbl, tp.2.any (fun p => containsSub nl p) = false) →
      classifyOver tbl nl = .PROCESS := by
  intro tbl
  induction tbl with
  | nil => intro _; rfl
  | cons tp rest ih =>
    intro hnone
    obtain ⟨t, pats⟩ := tp
    unfold classifyOver
    rw [if_neg (by simp [hnone (t, pats) (by simp)])]
    exact ih fun x hx => hnone x (by simp [hx])

/-! ### Claim theorems -/

/-- C1 (counterexample): on `"processor (10) is connected to database (12)"`
the claim fails — the second extracted component is not named `"database"`
(the non-greedy group captures everything after the first match, giving
`"is connected to database"`), and no relationship at all is extracted. -/
theorem C1_counterexample :
    ¬ ((parse_claims (sl "processor (10) is connected to database (12)")).1.map
          (fun c => c.name) = [sl "processor", sl "database"] ∧
       (parse_claims (sl "processor (10) is connected to database (12)")).2.length
          = 1) := by
  decide

/-- C1 (amended): for the input `"processor (10) is connected to database
(12)"`, `parse_claims` returns exactly two components — `"processor"` with
reference id 10 and category PROCESS, and `"is connected to database"` with
reference id 12 and category DATABASE — and no relationships. -/
theorem C1_amended :
    parse_claims (sl "processor (10) is connected to database (12)") =
      ([procComp, connDbComp], []) := by
  decide

/-- C2 (counterexample): on `"display\nconnected to monitor"` two components
`"Display"` and `"Monitor"` are discovered, the library phrase
`"connected to"` links them as a case-insensitive substring-existence test
(`specLinked`, the spec's unbounded-distance reading), yet the code infers
no relationship, because Python's `.` in `.*?` does not cross the newline. -/
theorem C2_counterexample :
    (extract_components (sl "display\nconnected to monitor")).map
        (fun c => c.name) = [sl "Display", sl "Monitor"] ∧
    sl "connected to" ∈ relationship_patterns ∧
    specLinked (sl "display\nconnected to monitor") (sl "Display")
        (sl "connected to") (sl "Monitor") = true ∧
    extract_relationships (sl "display\nconnected to monitor")
        (extract_components (sl "display\nconnected to monitor")) = [] := by
  decide

/-- C2 (amended): relationship inference emits, for every pair (i, j) with
i < j in discovery order and never in reverse, at most one relationship; a
relationship exists for the pair iff the first component's name is followed
by a library connector phrase followed by the second component's name as
case-insensitive contiguous occurrences whose two skipped gaps contain no
newline (`LinkedVia`); the label is the first such phrase in library order,
title-cased. -/
theorem C2_amended (text : List Char) (comps : List PatentComponent) :
    extract_relationships text comps =
      (specPairs comps).filterMap (fun pr => firstRel text pr.1 pr.2) ∧
    (∀ c1 c2 : PatentComponent,
      ((firstRel text c1 c2).isSome = true ↔
        ∃ p ∈ relationship_patterns,
          LinkedVia (fun c => decide (c ≠ '\n')) text c1.name p c2.name)) ∧
    (∀ (c1 c2 : PatentComponent) (conn : PatentConnection),
      firstRel text c1 c2 = some conn →
        ∃ l1 p l2, relationship_patterns = l1 ++ p :: l2 ∧
          LinkedVia (fun c => decide (c ≠ '\n')) text c1.name p c2.name ∧
          (∀ q ∈ l1,
            ¬ LinkedVia (fun c => decide (c ≠ '\n')) text c1.name q c2.name) ∧
          conn = mkConnection c1 c2 p) := by
  refine ⟨relLoop_eq_pairs text comps, ?_, ?_⟩
  · intro c1 c2
    rw [firstRel_isSome_iff]
    constructor
    · rintro ⟨p, hp, hs⟩
      exact ⟨p, hp, (searchGo_linked _ text c1.name p c2.name).mp hs⟩
    · rintro ⟨p, hp, hl⟩
      exact ⟨p, hp, (searchGo_linked _ text c1.name p c2.name).mpr hl⟩
  · intro c1 c2 conn h
    obtain ⟨l1, p, l2, heq, hs, hbefore, hconn⟩ :=
      (firstRel_eq_some_iff text c1 c2 conn).mp h
    refine ⟨l1, p, l2, heq, (searchGo_linked _ text c1.name p c2.name).mp hs,
      ?_, hconn⟩
    intro q hq hl
    have h2 : relSearch text c1.name q c2.name = true :=
      (searchGo_linked (fun c => decide (c ≠ '\n')) text c1.name q c2.name).mpr hl
    rw [hbefore q hq] at h2
    exact absurd h2 (by simp)

/-- C2 (witness): the amended characterisation applied to
`"display connected to monitor"`, where the pair is linked by the first
library phrase without any newline in the gaps. -/
theorem C2_amended_witness :
    ∃ l1 p l2, relationship_patterns = l1 ++ p :: l2 ∧
      LinkedVia (fun c => decide (c ≠ '\n')) (sl "display connected to monitor")
        (sl "Display") p (sl "Monitor") ∧
      (∀ q ∈ l1,
        ¬ LinkedVia (fun c => decide (c ≠ '\n')) (sl "display connected to monitor")
            (sl "Display") q (sl "Monitor")) ∧
      dispMonConn = mkConnection dispComp monComp p :=
  (C2_amended (sl "display connected to monitor")
      (extract_components (sl "display connected to monitor"))).2.2
    dispComp monComp dispMonConn (by decide)

/-- C3: for any input processed purely via the keyword-scan fallback (the
citation scan finds nothing), the reference ids in discovery order are
`10, 12, 14, …` — the k-th id is exactly `10 + 2k` — and they are pairwise
distinct. -/
theorem C3_fallback_ids (text : List Char) (h : findCitations text = []) :
    ((extract_components text).map (fun c => c.reference_num) =
      (List.range (extract_components text).length).map (fun k => 10 + 2 * k)) ∧
    ((extract_components text).map (fun c => c.reference_num)).Nodup := by
  have hext : extract_components text = extractFallback text := by
    unfold extract_components
    rw [h]
    rfl
  rw [hext]
  unfold extractFallback
  have hinv := fallback_fold_inv (fallbackMatches text) ([], 10) (by simp) (by simp)
  refine ⟨hinv.2, ?_⟩
  rw [hinv.2]
  exact List.Nodup.map (fun a b hab => by omega) (List.nodup_range _)

/-- C3 (witness): the fallback extraction of
`"display and monitor and database"` has ids `10, 12, 14` in discovery
order, pairwise distinct. -/
theorem C3_witness :
    ((extract_components (sl "display and monitor and database")).map
        (fun c => c.reference_num) =
      (List.range (extract_components
          (sl "display and monitor and database")).length).map
        (fun k => 10 + 2 * k)) ∧
    ((extract_components (sl "display and monitor and database")).map
        (fun c => c.reference_num)).Nodup :=
  C3_fallback_ids (sl "display and monitor and database") (by decide)

/-- C4: `_classify_component` is total over arbitrary input; it returns the
category of the first table entry (in the dict's fixed order) one of whose
patterns occurs as a substring of the lower-cased input, and PROCESS when
no entry matches. -/
theorem C4_classify (s : List Char) :
    (∀ l1 t pats l2,
      component_patterns = l1 ++ (t, pats) :: l2 →
      (∀ tp ∈ l1, tp.2.any (fun p => containsSub (lowerStr s) p) = false) →
      pats.any (fun p => containsSub (lowerStr s) p) = true →
      classify_component s = t) ∧
    ((∀ tp ∈ component_patterns,
        tp.2.any (fun p => containsSub (lowerStr s) p) = false) →
      classify_component s = .PROCESS) := by
  constructor
  · intro l1 t pats l2 heq hnone hmatch
    unfold classify_component
    rw [heq]
    exact classifyOver_of_first _ _ _ _ _ hnone hmatch
  · intro hnone
    unfold classify_component
    exact classifyOver_of_none _ _ hnone

/-- C4 (witness): `"main database"` is classified DATABASE (second table
entry, first with a matching pattern), and `"quantum widget"` matches no
pattern and falls back to PROCESS. -/
theorem C4_witness :
    classify_component (sl "main database") = ComponentType.DATABASE ∧
    classify_component (sl "quantum widget") = ComponentType.PROCESS :=
  ⟨(C4_classify (sl "main database")).1 (component_patterns.take 1)
      .DATABASE (component_patterns.get ⟨1, by decide⟩).2
      (component_patterns.drop 2) (by decide) (by decide) (by decide),
   (C4_classify (sl "quantum widget")).2 (by decide)⟩

/-- C5 (counterexample): on `"a (10) b (10) a connected to b"` the two
citation components both get reference id 10, and relationship inference
emits a connection whose two endpoints are equal — `from_id != to_id` does
occur. -/
theorem C5_counterexample :
    ¬ (∀ conn ∈ (parse_claims (sl "a (10) b (10) a connected to b")).2,
        conn.from_component ≠ conn.to_component) := by
  decide

/-- C5 (amended): every relationship produced by `parse_claims` references
existing components of the same result on both endpoints; however, the two
endpoints may coincide when explicit citations produce duplicate reference
ids. -/
theorem C5_amended (text : List Char) (conn : PatentConnection)
    (h : conn ∈ (parse_claims text).2) :
    ∃ c1 ∈ (parse_claims text).1, ∃ c2 ∈ (parse_claims text).1,
      conn.from_component = compRef c1.reference_num ∧
      conn.to_component = compRef c2.reference_num :=
  relLoop_mem text (extract_components text) conn h

/-- C5 (witness): the single self-loop connection extracted from
`"a (10) b (10) a connected to b"` references extracted components on both
endpoints. -/
theorem C5_witness :
    ∃ c1 ∈ (parse_claims (sl "a (10) b (10) a connected to b")).1,
      ∃ c2 ∈ (parse_claims (sl "a (10) b (10) a connected to b")).1,
        loopConn.from_component = compRef c1.reference_num ∧
        loopConn.to_component = compRef c2.reference_num :=
  C5_amended (sl "a (10) b (10) a connected to b") loopConn (by decide)

/-- C6: when the citation scan finds no match and no keyword pattern of the
table has a whole-word occurrence, `parse_claims` returns empty component
and relationship lists — a normal return. -/
theorem C6_empty (text : List Char) (h1 : findCitations text = [])
    (h2 : ∀ tp ∈ component_patterns, ∀ pat ∈ tp.2,
        findWordMatches pat text = []) :
    parse_claims text = ([], []) := by
  have hfb : fallbackMatches text = [] := by
    unfold fallbackMatches fallbackMatchesOver
    rw [List.eq_nil_iff_forall_not_mem]
    intro tm htm
    rw [List.mem_flatMap] at htm
    obtain ⟨tp, htp, hmem⟩ := htm
    rw [List.mem_flatMap] at hmem
    obtain ⟨pat, hpat, hmem2⟩ := hmem
    rw [h2 tp htp pat hpat] at hmem2
    simp at hmem2
  have hcomps : extract_components text = [] := by
    unfold extract_components
    rw [h1]
    show extractFallback text = []
    unfold extractFallback
    rw [hfb]
    rfl
  unfold parse_claims
  rw [hcomps]
  rfl

/-- C6 (witness): the empty input yields the empty extraction result. -/
theorem C6_witness : parse_claims (sl "") = ([], []) :=
  C6_empty (sl "") (by decide) (by decide)

/-- C7: evaluation at the failing input of the claim.  Because
`ComponentType.SENSOR` is an enum alias of `INTERFACE` (duplicate value
`"parallelogram"`), the sensor keyword list is overwritten by the display
keyword list in the pattern dict, so `"Sensor... sensor... SENSOR"`
produces no keyword match at all and extraction returns no component,
instead of the single deduplicated `"Sensor"` component the claim
describes. -/
theorem C7_sensor_scan :
    extract_components (sl "Sensor... sensor... SENSOR") = [] ∧
    fallbackMatches (sl "Sensor... sensor... SENSOR") = [] := by
  decide

/-- C8: `generate_diagram` is deterministic — two calls on equal component
lists, relationship lists and titles return equal diagram text. -/
theorem C8_deterministic (c1 c2 : List PatentComponent)
    (r1 r2 : List PatentConnection) (t1 t2 : List Char)
    (hc : c1 = c2) (hr : r1 = r2) (ht : t1 = t2) :
    generate_diagram c1 r1 t1 = generate_diagram c2 r2 t2 := by
  subst hc; subst hr; subst ht; rfl

/-- C8 (witness): determinism at a concrete input. -/
theorem C8_witness :
    generate_diagram [dispComp] [] (sl "T") =
      generate_diagram [dispComp] [] (sl "T") :=
  C8_deterministic _ _ _ _ _ _ rfl rfl rfl

/-- C9: grouping in the rendered diagram.  Concretely, three components of
one category (SENSOR, i.e. the INTERFACE member) and one of another
(DATABASE) render as exactly one labelled sub-region — holding the
synthetic title node, the three member nodes in first-seen order and the
same-rank `~~~` edge from the title node to the first member — plus exactly
one standalone top-level node; generally, a singleton category contributes
exactly its bare indented node and a multi-member category contributes
exactly its `_generate_subgraph` block. -/
theorem C9_grouping :
    generateLines [sensorComp, detectorComp, monDevComp, dbComp] [] (sl "T") =
      [ mermaid_config, [], sl "flowchart TB", sl "    TITLE[\"T\"]", [],
        sl "    subgraph INTERFACE_SYS [\" \"]",
        sl "        direction TB",
        sl "        INTERFACE_SYS_TITLE[\"INTERFACE SYSTEM\"]",
        sl "        COMP10[/Sensor 10/]",
        sl "        COMP12[/Detector 12/]",
        sl "        COMP14[/Monitoring Device 14/]",
        sl "        INTERFACE_SYS_TITLE ~~~ COMP10",
        sl "    end", [],
        sl "    COMP16[(\"Database 16\")]",
        [], [],
        sl "    %% USPTO-Compliant Styling\n    classDef default fill:#ffffff,stroke:#000000,stroke-width:3px,color:#000000,font-size:20px,font-weight:bold\n    class COMP10,COMP12,COMP14,COMP16 default" ] ∧
    (generateLines [sensorComp, detectorComp, monDevComp, dbComp] []
        (sl "T")).countP
      (fun l => decide (l.take 12 = sl "    subgraph")) = 1 ∧
    (∀ (t : ComponentType) (c : PatentComponent),
      componentSection [(t, [c])] = [sl "    " ++ to_mermaid_node c]) ∧
    (∀ (t : ComponentType) (c1 c2 : PatentComponent) (cs : List PatentComponent),
      componentSection [(t, c1 :: c2 :: cs)] =
        generate_subgraph t (c1 :: c2 :: cs)) := by
  refine ⟨?_, ?_, ?_, ?_⟩
  · set_option maxRecDepth 4000 in decide
  · set_option maxRecDepth 4000 in decide
  · intro t c
    simp [componentSection]
  · intro t c1 c2 cs
    unfold componentSection
    rw [List.flatMap_cons, List.flatMap_nil, List.append_nil]
    rw [if_pos (by simp only [List.length_cons]; omega)]

/-- C10 (counterexample): on `"database (10)"` the extracted component's
category is `ComponentType.STORAGE` — STORAGE is an enum alias of DATABASE
(duplicate value `"cylinder"`), so the "never assigned" part of the claim
fails for it. -/
theorem C10_counterexample :
    ∃ c ∈ extract_components (sl "database (10)"),
      c.component_type = ComponentType.STORAGE := by
  decide

/-- C10 (amended): every component produced by `extract`, under either
discovery strategy, has its category among the six claimed names — whose
runtime values are only PROCESS, DATABASE and INTERFACE — and the DECISION,
NETWORK and DOCUMENT members are never assigned; STORAGE cannot be excluded
because it is the same enum member as DATABASE. -/
theorem C10_amended (text : List Char) (c : PatentComponent)
    (h : c ∈ extract_components text) :
    c.component_type ∈ [ComponentType.PROCESS, ComponentType.DATABASE,
      ComponentType.CONTROLLER, ComponentType.INTERFACE, ComponentType.SENSOR,
      ComponentType.DISPLAY] ∧
    c.component_type ≠ ComponentType.DECISION ∧
    c.component_type ≠ ComponentType.NETWORK ∧
    c.component_type ≠ ComponentType.DOCUMENT := by
  have hkeys : component_patterns.map Prod.fst =
      [ComponentType.PROCESS, ComponentType.DATABASE, ComponentType.INTERFACE] := by
    decide
  have ht : c.component_type = ComponentType.PROCESS ∨
      c.component_type = ComponentType.DATABASE ∨
      c.component_type = ComponentType.INTERFACE := by
    unfold extract_components at h
    by_cases hemp :
        ((findCitations text).map fun gd =>
          ({ name := stripStr gd.1, reference_num := digitsToNat gd.2,
             component_type := classify_component (stripStr gd.1) }
            : PatentComponent)).isEmpty = true
    · rw [if_pos hemp] at h
      have := fallback_fold_types
        (fun t => t = ComponentType.PROCESS ∨ t = ComponentType.DATABASE ∨
          t = ComponentType.INTERFACE)
        (fallbackMatches text) ([], 10) ?_ (by intro x hx; simp at hx) c h
      · exact this
      · intro tm htm
        unfold fallbackMatches fallbackMatchesOver at htm
        rw [List.mem_flatMap] at htm
        obtain ⟨tp, htp, hmem⟩ := htm
        rw [List.mem_flatMap] at hmem
        obtain ⟨pat, _, hmem2⟩ := hmem
        rw [List.mem_map] at hmem2
        obtain ⟨m, _, hm⟩ := hmem2
        have hfst : tp.1 ∈ component_patterns.map Prod.fst :=
          List.mem_map_of_mem Prod.fst htp
        rw [hkeys] at hfst
        rw [← hm]
        simpa using hfst
    · rw [if_neg hemp] at h
      rw [List.mem_map] at h
      obtain ⟨gd, _, hc⟩ := h
      have hcl := classifyOver_mem (lowerStr (stripStr gd.1)) component_patterns
      rw [hkeys] at hcl
      have htc : c.component_type = classify_component (stripStr gd.1) := by
        rw [← hc]
      rw [htc]
      unfold classify_component
      rcases hcl with hcl | hcl
      · left; exact hcl
      · simpa using hcl
  rcases ht with ht | ht | ht <;> rw [ht] <;>
    exact ⟨by decide, by decide, by decide, by decide⟩

/-- C10 (witness): the amended invariant at the component extracted from
`"database (10)"`. -/
theorem C10_witness :
    (⟨sl "database", 10, .DATABASE, []⟩ : PatentComponent).component_type ∈
      [ComponentType.PROCESS, ComponentType.DATABASE, ComponentType.CONTROLLER,
       ComponentType.INTERFACE, ComponentType.SENSOR, ComponentType.DISPLAY] ∧
    (⟨sl "database", 10, .DATABASE, []⟩ : PatentComponent).component_type ≠
      ComponentType.DECISION ∧
    (⟨sl "database", 10, .DATABASE, []⟩ : PatentComponent).component_type ≠
      ComponentType.NETWORK ∧
    (⟨sl "database", 10, .DATABASE, []⟩ : PatentComponent).component_type ≠
      ComponentType.DOCUMENT :=
  C10_amended (sl "database (10)") ⟨sl "database", 10, .DATABASE, []⟩ (by decide)

end PatentGen
